import Mathlib

/-!
Verification of the VideoCut segment-export pipeline and range-request media
server (src/videocut.py), as a shallow embedding in Lean 4.

Modelling conventions:
* Time values (seconds) are modelled as exact rationals.  Every concrete time
  appearing in the verified properties (10.0, 30.0, small integers) is exactly
  representable as an IEEE double and the subtractions involved are exact, so
  the rational model agrees with Python float arithmetic on those inputs.
* Byte strings are lists of Nat; text strings are Lean Strings (Python str
  slices by character, as does List Char).
* External processes are an oracle (Nat-indexed result per spawn, in spawn
  order); the filesystem is an environment of boolean and size queries.
* The HTTP layer (status line, header wire format) is abstracted to a record
  of status code, declared lengths and body bytes.
-/

set_option maxRecDepth 4000

namespace VideoCut

/-- Decimal digit characters of a natural number, most significant first;
models Python str(int) for non-negative values.  The first argument is fuel
(strictly larger than the number of digits). -/
def natReprAux : Nat → Nat → List Char
  | 0, _ => []
  | f+1, n => if n < 10 then [Nat.digitChar n]
              else natReprAux f (n / 10) ++ [Nat.digitChar (n % 10)]

/-- Python str(n) for a natural number n. -/
def natRepr (n : Nat) : String := String.mk (natReprAux (n+1) n)

/-- Exactly four decimal digit characters of fp (expected fp < 10000),
zero padded on the left. -/
def digitStr4 (fp : Nat) : String :=
  String.mk [Nat.digitChar (fp / 1000 % 10), Nat.digitChar (fp / 100 % 10),
             Nat.digitChar (fp / 10 % 10), Nat.digitChar (fp % 10)]

/-- The value scaled by 10000 and rounded to the nearest integer with ties
to even (the rounding CPython applies when formatting a float), computed on
the exact fraction. -/
def round4 (q : ℚ) : Int :=
  let d : Int := (q.den : Int)
  let t : Int := 10000 * q.num
  let fl : Int := t.fdiv d
  let rem : Int := t - fl * d
  if 2 * rem < d then fl
  else if 2 * rem > d then fl + 1
  else if fl % 2 = 0 then fl else fl + 1

/-- Python f-string formatting x:.4f of a time value, modelled on exact
rationals: the rounded scaled value is printed as integer part, a dot, and
exactly four fractional digits.  Negative values get a leading minus
sign. -/
def fmt4 (q : ℚ) : String :=
  let m := (round4 q).natAbs
  let s : String := natRepr (m / 10000) ++ "." ++ digitStr4 (m % 10000)
  if q.num < 0 then "-" ++ s else s

/-- Python result.stderr[-300:]: the last 300 characters of the diagnostic
text (the whole text when it is shorter). -/
def tail300 (s : String) : String := String.mk (s.data.drop (s.data.length - 300))

/-- Python f"{i:04d}": decimal digits of i, zero padded on the left to at
least four characters. -/
def pad4 (i : Nat) : String :=
  let s := natRepr i
  String.mk (List.replicate (4 - s.data.length) '0' ++ s.data)

/-- Python os.path.basename: the part of the path after the last slash. -/
def basename (s : String) : String :=
  String.mk (s.data.reverse.takeWhile (· ≠ '/')).reverse

/-- Python os.path.dirname (posixpath): everything up to the last slash;
trailing slashes are stripped unless the head is all slashes. -/
def dirname (s : String) : String :=
  let headPart := (s.data.reverse.dropWhile (· ≠ '/')).reverse
  if headPart = [] then ""
  else if headPart.all (· = '/') then String.mk headPart
  else String.mk (headPart.reverse.dropWhile (· = '/')).reverse

/-- Python os.path.splitext applied to a basename: split at the last dot,
except that a name whose part before the last dot is empty or all dots
(such as .bashrc) has no extension. -/
def splitext (s : String) : String × String :=
  let rev := s.data.reverse
  let extRev := rev.takeWhile (· ≠ '.')
  if extRev.length = rev.length then (s, "")
  else
    let stem := (rev.drop (extRev.length + 1)).reverse
    if stem.all (· = '.') then (s, "")
    else (String.mk stem, String.mk ('.' :: extRev.reverse))

/-- Python os.path.join for two components (posixpath): an absolute second
component replaces the first; otherwise a single slash separates them unless
the first already ends in one. -/
def pathJoin (d n : String) : String :=
  if n.data.head? = some '/' then n
  else if d = "" then n
  else if d.data.getLast? = some '/' then d ++ n
  else d ++ "/" ++ n

/-- Candidate output file names tried by the export handler, in order:
base_cut ext first, then base_cut_1 ext, base_cut_2 ext, and so on
(videocut.py lines 232-241). -/
def outputCandidate (base ext : String) : Nat → String
  | 0 => base ++ "_cut" ++ ext
  | k+1 => base ++ "_cut_" ++ natRepr (k+1) ++ ext

/-- The collision-avoidance loop of the export handler: starting from
candidate k, return the index of the first candidate whose full path does
not exist.  The fuel bounds the number of probes; the Python loop is
unbounded but terminates on any finite filesystem. -/
def resolveLoop (pathExists : String → Bool) (dir base ext : String) : Nat → Nat → Option Nat
  | 0, _ => none
  | f+1, k =>
      if pathExists (pathJoin dir (outputCandidate base ext k)) then
        resolveLoop pathExists dir base ext f (k+1)
      else some k

/-- A kept time range of the source video; the Python request field names
are in and out (in is a Lean keyword). -/
structure Segment where
  tIn : ℚ
  tOut : ℚ
  deriving DecidableEq

/-- Codec argument block chosen by _codec_args (videocut.py lines 244-249):
with vflip a vertical-flip filter plus an H.264 constant-quality re-encode of
the video and a copy of the audio, otherwise a plain stream copy. -/
def codecArgs (vflip : Bool) : List String :=
  if vflip then
    ["-vf", "vflip", "-c:v", "libx264", "-preset", "medium", "-crf", "18", "-c:a", "copy"]
  else
    ["-c", "copy"]

/-- The single-segment ffmpeg invocation (videocut.py lines 255-263),
targeting the final output path. -/
def singleCmd (source : String) (seg : Segment) (vflip : Bool) (outputPath : String) :
    List String :=
  ["ffmpeg", "-y", "-ss", fmt4 seg.tIn, "-i", source, "-t", fmt4 (seg.tOut - seg.tIn)]
    ++ codecArgs vflip ++ ["-avoid_negative_ts", "make_zero", outputPath]

/-- Intermediate file name for segment i inside the temporary directory
(videocut.py line 277). -/
def segTempFile (tempDir : String) (i : Nat) : String :=
  pathJoin tempDir ("seg_" ++ pad4 i ++ ".ts")

/-- The per-segment ffmpeg invocation of the multi-segment branch
(videocut.py lines 279-294), targeting a transport-stream intermediate. -/
def segCmd (source : String) (vflip : Bool) (tempDir : String) (i : Nat) (seg : Segment) :
    List String :=
  ["ffmpeg", "-y", "-ss", fmt4 seg.tIn, "-i", source, "-t", fmt4 (seg.tOut - seg.tIn)]
    ++ codecArgs vflip
    ++ ["-avoid_negative_ts", "make_zero", "-f", "mpegts", segTempFile tempDir i]

/-- The final concatenation invocation (videocut.py lines 308-314). -/
def concatCmd (tempDir outputPath : String) : List String :=
  ["ffmpeg", "-y", "-f", "concat", "-safe", "0", "-i", pathJoin tempDir "concat.txt",
   "-c", "copy", outputPath]

/-- The per-segment invocations for a list of segments starting at index i,
in list order. -/
def segCmds (source : String) (vflip : Bool) (tempDir : String) :
    List Segment → Nat → List (List String)
  | [], _ => []
  | seg :: rest, i => segCmd source vflip tempDir i seg :: segCmds source vflip tempDir rest (i+1)

/-- Result of one external-process invocation, as observed by the handler:
either the process completed with an exit status and captured diagnostics, or
subprocess.run raised TimeoutExpired. -/
inductive ProcResult where
  | completed (returncode : Int) (diagnostics : String)
  | timedOut
  deriving DecidableEq

/-- Environment of one export call: filesystem queries, the name mkdtemp
returns, the oracle of external-process results in spawn order, and the fuel
bounding the collision-avoidance loop. -/
structure Env where
  pathExists : String → Bool
  getsize : String → Nat
  tempDirName : String
  procs : Nat → ProcResult
  nameFuel : Nat

/-- The JSON response the export handler sends: a success body with the
output path and its stat size, or an error body with an HTTP status. -/
inductive ExportResponse where
  | ok (output : String) (size : Nat)
  | err (status : Nat) (msg : String)
  deriving DecidableEq

/-- Observable outcome of one export call: the response sent, every external
invocation actually spawned in order, whether mkdtemp ran, whether the
temporary directory was removed before the handler returned, and the output
path selected by the collision loop (none when validation rejected the
request before a path was computed). -/
structure ExportOutcome where
  response : ExportResponse
  spawned : List (List String)
  tempDirCreated : Bool
  tempDirRemoved : Bool
  outputPath : Option String
  deriving DecidableEq

/-- Intermediate result of the sequential per-segment loop of the
multi-segment branch (videocut.py lines 275-301): the first timeout aborts
the loop as an exception, the first non-zero exit stops it with the 1-based
failing index and bounded diagnostic tail, otherwise all segments ran.
Each constructor carries the invocations spawned by the loop, in order. -/
inductive MultiStep where
  | timeout (spawned : List (List String))
  | segFail (idx1 : Nat) (tail : String) (spawned : List (List String))
  | done (spawned : List (List String))
  deriving DecidableEq

/-- Whether the loop ended in a timeout exception. -/
def MultiStep.isTimeout : MultiStep → Bool
  | .timeout _ => true
  | _ => false

/-- The sequential per-segment loop: run each invocation in list order,
consuming oracle results by spawn index. -/
def runSegs (env : Env) (source : String) (vflip : Bool) (tempDir : String) :
    List Segment → Nat → MultiStep
  | [], _ => .done []
  | seg :: rest, i =>
    let cmd := segCmd source vflip tempDir i seg
    match env.procs i with
    | .timedOut => .timeout [cmd]
    | .completed rc diag =>
      if rc ≠ 0 then .segFail (i+1) (tail300 diag) [cmd]
      else
        match runSegs env source vflip tempDir rest (i+1) with
        | .timeout sp => .timeout (cmd :: sp)
        | .segFail j t sp => .segFail j t (cmd :: sp)
        | .done sp => .done (cmd :: sp)

/-- The export handler _handle_export (videocut.py lines 222-333).  Returns
none only when the collision-avoidance loop exceeds its fuel (the Python
loop is unbounded; on a finite filesystem it always terminates).

Control flow mirrors the source: an empty segments list is rejected with
status 400 before anything else; then the output path is chosen; a single
segment runs one invocation targeting the final path; several segments run
per-segment invocations into a fresh temporary directory, then one
concatenation invocation, removing the temporary directory after a
per-segment non-zero exit or after the concatenation attempt completes.
A TimeoutExpired propagates to the outer except handler, which sends the
timeout response without removing the temporary directory. -/
def handleExport (env : Env) (source : String) (segments : List Segment)
    (outputDir : Option String) (vflip : Bool) : Option ExportOutcome :=
  if segments.isEmpty then
    some { response := .err 400 "セグメントが指定されていません", spawned := [],
           tempDirCreated := false, tempDirRemoved := false, outputPath := none }
  else
    let odir := outputDir.getD (dirname source)
    let be := splitext (basename source)
    match resolveLoop env.pathExists odir be.1 be.2 env.nameFuel 0 with
    | none => none
    | some k =>
      let outputPath := pathJoin odir (outputCandidate be.1 be.2 k)
      match segments with
      | [seg] =>
        let cmd := singleCmd source seg vflip outputPath
        match env.procs 0 with
        | .timedOut =>
          some { response := .err 500 "処理がタイムアウトしました", spawned := [cmd],
                 tempDirCreated := false, tempDirRemoved := false, outputPath := some outputPath }
        | .completed rc diag =>
          if rc ≠ 0 then
            some { response := .err 500 ("ffmpegエラー: " ++ tail300 diag), spawned := [cmd],
                   tempDirCreated := false, tempDirRemoved := false, outputPath := some outputPath }
          else
            some { response := .ok outputPath (env.getsize outputPath), spawned := [cmd],
                   tempDirCreated := false, tempDirRemoved := false, outputPath := some outputPath }
      | _ =>
        let tempDir := env.tempDirName
        match runSegs env source vflip tempDir segments 0 with
        | .timeout sp =>
          some { response := .err 500 "処理がタイムアウトしました", spawned := sp,
                 tempDirCreated := true, tempDirRemoved := false, outputPath := some outputPath }
        | .segFail j t sp =>
          some { response := .err 500 ("セグメント" ++ natRepr j ++ "のエラー: " ++ t),
                 spawned := sp, tempDirCreated := true, tempDirRemoved := true,
                 outputPath := some outputPath }
        | .done sp =>
          let ccmd := concatCmd tempDir outputPath
          match env.procs segments.length with
          | .timedOut =>
            some { response := .err 500 "処理がタイムアウトしました", spawned := sp ++ [ccmd],
                   tempDirCreated := true, tempDirRemoved := false, outputPath := some outputPath }
          | .completed rc diag =>
            if rc ≠ 0 then
              some { response := .err 500 ("結合エラー: " ++ tail300 diag),
                     spawned := sp ++ [ccmd], tempDirCreated := true, tempDirRemoved := true,
                     outputPath := some outputPath }
            else
              some { response := .ok outputPath (env.getsize outputPath),
                     spawned := sp ++ [ccmd], tempDirCreated := true, tempDirRemoved := true,
                     outputPath := some outputPath }

/-- Whether pat occurs at the head of s. -/
def startsWithL (pat s : List Char) : Bool :=
  match pat, s with
  | [], _ => true
  | _ :: _, [] => false
  | p :: ps, c :: cs => p = c && startsWithL ps cs

/-- Python str.replace(pat, rep) on character lists for a non-empty pattern:
every occurrence of pat, scanning left to right, is replaced by rep. -/
def replaceStr (s pat rep : List Char) : List Char :=
  match s with
  | [] => []
  | c :: rest =>
    if h : pat ≠ [] ∧ startsWithL pat (c :: rest) then
      rep ++ replaceStr ((c :: rest).drop pat.length) pat rep
    else
      c :: replaceStr rest pat rep
termination_by s.length
decreasing_by
  · have hp : 1 ≤ pat.length := by
      cases pat with
      | nil => exact absurd rfl h.1
      | cons x xs => simp
    simp only [List.length_drop, List.length_cons]
    omega
  · simp

/-- Python str.split(sep) for a single-character separator: the pieces of s
between occurrences of c, preserving empty pieces. -/
def splitOnChar (c : Char) : List Char → List (List Char)
  | [] => [[]]
  | x :: xs =>
    if x = c then [] :: splitOnChar c xs
    else
      match splitOnChar c xs with
      | [] => [[x]]
      | piece :: rest => (x :: piece) :: rest

/-- Python int(s) restricted to plain decimal numerals: defined exactly on
non-empty all-digit strings (the source raises ValueError elsewhere; the
forms with sign or whitespace that int also accepts never arise here). -/
def digitsToNat : List Char → Option Nat :=
  fun cs =>
    if cs ≠ [] ∧ cs.all Char.isDigit then
      some (cs.foldl (fun a c => a * 10 + (c.toNat - 48)) 0)
    else none

/-- One bounded read of the range branch: Python f.read(min(65536,
remaining)) at position pos. -/
def chunkAt (file : List Nat) (pos : Nat) (remaining : Int) : List Nat :=
  (file.drop pos).take (min 65536 remaining.toNat)

/-- The bounded-buffer read loop of the range branch (videocut.py lines
198-205): read up to 65536 bytes at a time from the current position until
remaining bytes have been sent or the file ends early. -/
def readChunks (file : List Nat) (pos : Nat) (remaining : Int) : List Nat :=
  if remaining ≤ 0 then []
  else if hc : chunkAt file pos remaining = [] then []
  else
    chunkAt file pos remaining ++
      readChunks file (pos + (chunkAt file pos remaining).length)
        (remaining - (chunkAt file pos remaining).length)
termination_by remaining.toNat
decreasing_by
  have h1 : 0 < (chunkAt file pos remaining).length := List.length_pos.mpr hc
  have h2 : (chunkAt file pos remaining).length ≤ remaining.toNat :=
    le_trans (List.length_take_le _ _) (min_le_right _ _)
  omega

/-- One read of the no-range branch: Python f.read(65536) at position
pos. -/
def fullChunkAt (file : List Nat) (pos : Nat) : List Nat :=
  (file.drop pos).take 65536

/-- The full-file read loop of the no-range branch (videocut.py lines
214-219): 65536-byte chunks until the file is exhausted. -/
def readAllLoop (file : List Nat) (pos : Nat) : List Nat :=
  if hc : fullChunkAt file pos = [] then []
  else fullChunkAt file pos ++ readAllLoop file (pos + (fullChunkAt file pos).length)
termination_by file.length - pos
decreasing_by
  have h1 : 0 < (fullChunkAt file pos).length := List.length_pos.mpr hc
  have h2 : (fullChunkAt file pos).length = min 65536 (file.length - pos) := by
    simp [fullChunkAt, List.length_take]
  omega

/-- What _serve_video sends for one request, once the file is known to
exist: status code, the declared Content-Length, the Content-Range triple
start, end, total when present, and the body bytes actually written. -/
structure ServeResult where
  status : Nat
  contentLength : Int
  contentRange : Option (Int × Int × Nat)
  body : List Nat
  deriving DecidableEq

/-- The media server _serve_video (videocut.py lines 172-219) on an existing
file, abstracted over the file bytes.  A request with a Range header parses
it as bytes=START-END after stripping the literal bytes= and splitting on a
dash: an empty START is 0, an empty END is the last byte of the file; it
answers 206 with a Content-Range declaring the total size and streams
end - start + 1 bytes from offset start through the bounded-buffer loop.  A
request without a Range header answers 200 with the whole file.  The error
value models the uncaught Python exception when the header has no dash or a
position is not a numeral. -/
def serveVideo (file : List Nat) (rangeHeader : Option (List Char)) :
    Except Unit ServeResult :=
  match rangeHeader with
  | none =>
    .ok { status := 200, contentLength := (file.length : Int), contentRange := none,
          body := readAllLoop file 0 }
  | some h =>
    let ranges := splitOnChar '-' (replaceStr h "bytes=".data [])
    match ranges with
    | r0 :: r1 :: _ =>
      let startv : Option Int :=
        if r0 = [] then some 0 else (digitsToNat r0).map (fun n => (n : Int))
      let endv : Option Int :=
        if r1 = [] then some ((file.length : Int) - 1)
        else (digitsToNat r1).map (fun n => (n : Int))
      match startv, endv with
      | some s, some e =>
        let len : Int := e - s + 1
        .ok { status := 206, contentLength := len,
              contentRange := some (s, e, file.length),
              body := readChunks file s.toNat len }
      | _, _ => .error ()
    | _ => .error ()

/-- The invocations a finished loop spawned, regardless of how it ended. -/
def MultiStep.spawnedList : MultiStep → List (List String)
  | .timeout sp => sp
  | .segFail _ _ sp => sp
  | .done sp => sp

/-- A filesystem with no colliding names and an oracle whose every
invocation completes with exit status 0. -/
def envAllOk : Env :=
  { pathExists := fun _ => false, getsize := fun _ => 0, tempDirName := "/tmp/vcut",
    procs := fun _ => .completed 0 "", nameFuel := 1 }

/-- An oracle whose second invocation (spawn index 1) exits with status 1
and diagnostics, while every other invocation succeeds. -/
def envFailSeg2 : Env :=
  { pathExists := fun _ => false, getsize := fun _ => 0, tempDirName := "/tmp/vcut",
    procs := fun i => if i = 1 then .completed 1 "boom" else .completed 0 "", nameFuel := 1 }

/-- An oracle whose first invocation succeeds and whose second raises
TimeoutExpired. -/
def envTimeoutSeg2 : Env :=
  { pathExists := fun _ => false, getsize := fun _ => 0, tempDirName := "/tmp/vcut",
    procs := fun i => if i = 0 then .completed 0 "" else .timedOut, nameFuel := 1 }

/-! Lemmas about the read loops. -/

/-- Fuel-indexed form: the bounded-buffer loop writes exactly the first
remaining bytes available at the start offset, clipped at end of file. -/
theorem readChunks_eq_aux :
    ∀ (m : Nat) (file : List Nat) (pos : Nat) (remaining : Int),
      remaining.toNat ≤ m →
      readChunks file pos remaining = (file.drop pos).take remaining.toNat := by
  intro m
  induction m with
  | zero =>
    intro file pos r h
    have h0 : r ≤ 0 := by omega
    rw [readChunks]
    simp [h0, Int.toNat_of_nonpos h0]
  | succ n ih =>
    intro file pos r h
    rw [readChunks]
    by_cases h0 : r ≤ 0
    · simp [h0, Int.toNat_of_nonpos h0]
    · simp only [h0, if_false]
      by_cases hc : chunkAt file pos r = []
      · simp only [hc, dif_pos]
        have hlen : (chunkAt file pos r).length = min (min 65536 r.toNat) (file.drop pos).length := by
          unfold chunkAt; rw [List.length_take]
        have hcl : (chunkAt file pos r).length = 0 := by rw [hc]; rfl
        have hnil : file.drop pos = [] := by
          apply List.length_eq_zero.mp
          omega
        simp [hnil]
      · simp only [hc, dif_neg, not_false_iff]
        have hlen : (chunkAt file pos r).length = min (min 65536 r.toNat) (file.drop pos).length := by
          unfold chunkAt; rw [List.length_take]
        have hpos : 0 < (chunkAt file pos r).length := List.length_pos.mpr hc
        have hle : (chunkAt file pos r).length ≤ r.toNat := by omega
        have htn : (r - ((chunkAt file pos r).length : Int)).toNat
            = r.toNat - (chunkAt file pos r).length := by omega
        have hfuel : (r - ((chunkAt file pos r).length : Int)).toNat ≤ n := by omega
        rw [ih file (pos + (chunkAt file pos r).length) _ hfuel, htn]
        have hdd : file.drop (pos + (chunkAt file pos r).length)
            = (file.drop pos).drop (chunkAt file pos r).length := by
          rw [List.drop_drop, Nat.add_comm]
        rw [hdd]
        have htk : (file.drop pos).take (chunkAt file pos r).length
            = chunkAt file pos r := by
          conv_rhs => rw [show chunkAt file pos r = (file.drop pos).take (min 65536 r.toNat) from rfl]
          apply List.take_eq_take.mpr
          omega
        calc chunkAt file pos r ++ ((file.drop pos).drop (chunkAt file pos r).length).take
              (r.toNat - (chunkAt file pos r).length)
            = (file.drop pos).take (chunkAt file pos r).length ++
              ((file.drop pos).drop (chunkAt file pos r).length).take
              (r.toNat - (chunkAt file pos r).length) := by rw [htk]
          _ = (file.drop pos).take ((chunkAt file pos r).length +
              (r.toNat - (chunkAt file pos r).length)) := (List.take_add _ _ _).symm
          _ = (file.drop pos).take r.toNat := by congr 1; omega

/-- The bounded-buffer loop writes exactly the requested span, clipped at
end of file. -/
theorem readChunks_eq (file : List Nat) (pos : Nat) (remaining : Int) :
    readChunks file pos remaining = (file.drop pos).take remaining.toNat :=
  readChunks_eq_aux remaining.toNat file pos remaining le_rfl

/-- Fuel-indexed form: the full-file loop writes the file from the start
offset to end of file. -/
theorem readAllLoop_eq_aux :
    ∀ (m : Nat) (file : List Nat) (pos : Nat),
      file.length - pos ≤ m → readAllLoop file pos = file.drop pos := by
  intro m
  induction m with
  | zero =>
    intro file pos h
    have hnil : file.drop pos = [] := by
      apply List.length_eq_zero.mp
      rw [List.length_drop]; omega
    rw [readAllLoop]
    simp [fullChunkAt, hnil]
  | succ n ih =>
    intro file pos h
    rw [readAllLoop]
    by_cases hc : fullChunkAt file pos = []
    · simp only [hc, dif_pos]
      have hlen : (fullChunkAt file pos).length = min 65536 (file.drop pos).length := by
        unfold fullChunkAt; rw [List.length_take]
      have hcl : (fullChunkAt file pos).length = 0 := by rw [hc]; rfl
      have hnil : file.drop pos = [] := by
        apply List.length_eq_zero.mp
        omega
      simp [hnil]
    · simp only [hc, dif_neg, not_false_iff]
      have hlen : (fullChunkAt file pos).length = min 65536 (file.drop pos).length := by
        unfold fullChunkAt; rw [List.length_take]
      have hpos : 0 < (fullChunkAt file pos).length := List.length_pos.mpr hc
      have hdl : (file.drop pos).length = file.length - pos := List.length_drop _ _
      have hfuel : file.length - (pos + (fullChunkAt file pos).length) ≤ n := by omega
      rw [ih file _ hfuel]
      have hdd : file.drop (pos + (fullChunkAt file pos).length)
          = (file.drop pos).drop (fullChunkAt file pos).length := by
        rw [List.drop_drop, Nat.add_comm]
      rw [hdd]
      have htk : (file.drop pos).take (fullChunkAt file pos).length
          = fullChunkAt file pos := by
        conv_rhs => rw [show fullChunkAt file pos = (file.drop pos).take 65536 from rfl]
        apply List.take_eq_take.mpr
        omega
      calc fullChunkAt file pos ++ (file.drop pos).drop (fullChunkAt file pos).length
          = (file.drop pos).take (fullChunkAt file pos).length ++
            (file.drop pos).drop (fullChunkAt file pos).length := by rw [htk]
        _ = file.drop pos := List.take_append_drop _ _

/-- The full-file loop writes the whole file. -/
theorem readAllLoop_eq (file : List Nat) : readAllLoop file 0 = file := by
  rw [readAllLoop_eq_aux (file.length) file 0 (by omega)]
  simp

/-! Lemmas about the Range-header parsing primitives. -/

/-- A pattern matches at the head of itself followed by anything. -/
theorem startsWithL_same (pat rest : List Char) : startsWithL pat (pat ++ rest) = true := by
  induction pat with
  | nil => rfl
  | cons p ps ih => simp [startsWithL, ih]

/-- Replacing a pattern whose first character never occurs in s leaves s
unchanged. -/
theorem replaceStr_not_head (p : Char) (ps rep : List Char) :
    ∀ s : List Char, p ∉ s → replaceStr s (p :: ps) rep = s := by
  intro s
  induction s with
  | nil => intro _; rw [replaceStr]
  | cons c rest ih =>
    intro hmem
    have hpc : p ≠ c := fun h => hmem (h ▸ List.mem_cons_self _ _)
    have hcond : ¬((p :: ps) ≠ [] ∧ startsWithL (p :: ps) (c :: rest) = true) := by
      intro hand
      have := hand.2
      simp [startsWithL, hpc] at this
    rw [replaceStr, dif_neg hcond]
    have : p ∉ rest := fun h => hmem (List.mem_cons_of_mem _ h)
    rw [ih this]

/-- Replacing a non-empty pattern standing at the head of the string
replaces it and continues on the remainder. -/
theorem replaceStr_cons_self (pat rep rest : List Char) (hne : pat ≠ []) :
    replaceStr (pat ++ rest) pat rep = rep ++ replaceStr rest pat rep := by
  cases pat with
  | nil => exact absurd rfl hne
  | cons p ps =>
    have hcond : ((p :: ps) ≠ [] ∧ startsWithL (p :: ps) (p :: (ps ++ rest)) = true) := by
      refine ⟨by simp, ?_⟩
      have := startsWithL_same (p :: ps) rest
      simpa using this
    rw [show (p :: ps) ++ rest = p :: (ps ++ rest) from rfl]
    rw [replaceStr, dif_pos hcond]
    congr 1
    rw [show p :: (ps ++ rest) = (p :: ps) ++ rest from rfl]
    rw [show ((p :: ps) ++ rest).drop (p :: ps).length = rest from List.drop_left _ _]

/-- Splitting on a separator that does not occur yields a single piece. -/
theorem splitOnChar_not_mem (c : Char) : ∀ l : List Char, c ∉ l → splitOnChar c l = [l] := by
  intro l
  induction l with
  | nil => intro _; rfl
  | cons x xs ih =>
    intro hmem
    have hxc : ¬(x = c) := fun h => hmem (h ▸ List.mem_cons_self _ _)
    have hxs : c ∉ xs := fun h => hmem (List.mem_cons_of_mem _ h)
    rw [splitOnChar, if_neg hxc, ih hxs]

/-- Splitting a ++ separator ++ b where the separator does not occur in a
peels off a as the first piece. -/
theorem splitOnChar_append (c : Char) :
    ∀ a b : List Char, c ∉ a → splitOnChar c (a ++ c :: b) = a :: splitOnChar c b := by
  intro a
  induction a with
  | nil =>
    intro b _
    rw [List.nil_append, splitOnChar, if_pos rfl]
  | cons x xs ih =>
    intro b hmem
    have hxc : ¬(x = c) := fun h => hmem (h ▸ List.mem_cons_self _ _)
    have hxs : c ∉ xs := fun h => hmem (List.mem_cons_of_mem _ h)
    rw [show (x :: xs) ++ c :: b = x :: (xs ++ c :: b) from rfl]
    rw [splitOnChar, if_neg hxc, ih b hxs]

/-- Inversion for the numeral parser: success means a non-empty all-digit
input. -/
theorem digitsToNat_some {cs : List Char} {n : Nat} (h : digitsToNat cs = some n) :
    cs ≠ [] ∧ cs.all Char.isDigit = true := by
  unfold digitsToNat at h
  by_cases hcond : cs ≠ [] ∧ cs.all Char.isDigit = true
  · exact hcond
  · rw [if_neg hcond] at h
    exact absurd h (by simp)

/-- A character that is not a digit does not occur in an all-digit list. -/
theorem not_mem_of_all_digits {cs : List Char} (h : cs.all Char.isDigit = true)
    {c : Char} (hc : c.isDigit = false) : c ∉ cs := by
  intro hmem
  have := List.all_eq_true.mp h c hmem
  rw [hc] at this
  exact absurd this (by simp)

/-- The Range-header parsing chain of _serve_video on a well-formed header:
stripping the literal bytes= and splitting on the dash recovers the two
position fields. -/
theorem rangeHeader_parses (csS csE : List Char)
    (hS1 : '-' ∉ csS) (hS2 : 'b' ∉ csS) (hE1 : '-' ∉ csE) (hE2 : 'b' ∉ csE) :
    splitOnChar '-' (replaceStr ("bytes=".data ++ (csS ++ '-' :: csE)) "bytes=".data [])
      = [csS, csE] := by
  rw [replaceStr_cons_self _ _ _ (by decide)]
  rw [List.nil_append]
  rw [show ("bytes=".data : List Char) = 'b' :: "ytes=".data from rfl]
  rw [replaceStr_not_head 'b' _ _ _ (by
    intro hmem
    rcases List.mem_append.mp hmem with h | h
    · exact hS2 h
    · rcases List.mem_cons.mp h with h' | h'
      · exact absurd h' (by decide)
      · exact hE2 h')]
  rw [splitOnChar_append _ _ _ hS1, splitOnChar_not_mem _ _ hE1]

/-- Evaluation of _serve_video on a well-formed Range header whose two
position fields resolve to start s and end e: a 206 answer declaring the
total size, a Content-Length of e - s + 1, and a body read by the bounded
loop from offset s. -/
theorem serveVideo_range_eval (file : List Nat) (csS csE : List Char)
    (hS1 : '-' ∉ csS) (hS2 : 'b' ∉ csS) (hE1 : '-' ∉ csE) (hE2 : 'b' ∉ csE)
    (s e : Int)
    (hs : (if csS = [] then some (0 : Int)
           else (digitsToNat csS).map (fun n => (n : Int))) = some s)
    (he : (if csE = [] then some ((file.length : Int) - 1)
           else (digitsToNat csE).map (fun n => (n : Int))) = some e) :
    serveVideo file (some ("bytes=".data ++ (csS ++ '-' :: csE))) =
      .ok { status := 206, contentLength := e - s + 1,
            contentRange := some (s, e, file.length),
            body := (file.drop s.toNat).take (e - s + 1).toNat } := by
  simp only [serveVideo]
  rw [rangeHeader_parses csS csE hS1 hS2 hE1 hE2]
  simp only [hs, he]
  rw [readChunks_eq]

/-- C3: for a range request bytes=start-end on an existing file with a
span inside the file, the server answers 206, declares the total file size
in the Content-Range, and streams exactly end - start + 1 bytes read from
offset start; an omitted end defaults to the last byte of the file
(bytes=start- serves from start to end of file); a request with no Range
header answers 200 with the whole file and its exact byte length
declared. -/
theorem range_request_serves_exact_span :
    (∀ (file : List Nat) (csS csE : List Char) (s e : Nat),
      digitsToNat csS = some s → digitsToNat csE = some e →
      s ≤ e → e < file.length →
      serveVideo file (some ("bytes=".data ++ (csS ++ '-' :: csE))) =
        .ok { status := 206, contentLength := (e : Int) - (s : Int) + 1,
              contentRange := some (((s : Nat) : Int), ((e : Nat) : Int), file.length),
              body := (file.drop s).take (e - s + 1) } ∧
      ((file.drop s).take (e - s + 1)).length = e - s + 1)
    ∧ (∀ (file : List Nat) (csS : List Char) (s : Nat),
      digitsToNat csS = some s →
      serveVideo file (some ("bytes=".data ++ (csS ++ '-' :: ([] : List Char)))) =
        .ok { status := 206, contentLength := (file.length : Int) - (s : Int),
              contentRange := some (((s : Nat) : Int), (file.length : Int) - 1, file.length),
              body := file.drop s })
    ∧ (∀ file : List Nat,
      serveVideo file none =
        .ok { status := 200, contentLength := (file.length : Int), contentRange := none,
              body := file }) := by
  refine ⟨?_, ?_, ?_⟩
  · intro file csS csE s e hs he hse helen
    obtain ⟨hSne, hSdig⟩ := digitsToNat_some hs
    obtain ⟨hEne, hEdig⟩ := digitsToNat_some he
    have h1 := serveVideo_range_eval file csS csE
      (not_mem_of_all_digits hSdig (by decide)) (not_mem_of_all_digits hSdig (by decide))
      (not_mem_of_all_digits hEdig (by decide)) (not_mem_of_all_digits hEdig (by decide))
      ((s : Nat) : Int) ((e : Nat) : Int)
      (by rw [if_neg hSne, hs]; rfl) (by rw [if_neg hEne, he]; rfl)
    have t1 : (((s : Nat) : Int)).toNat = s := by omega
    have t2 : (((e : Nat) : Int) - ((s : Nat) : Int) + 1).toNat = e - s + 1 := by omega
    refine ⟨?_, ?_⟩
    · rw [h1, t1, t2]
    · rw [List.length_take, List.length_drop]
      omega
  · intro file csS s hs
    obtain ⟨hSne, hSdig⟩ := digitsToNat_some hs
    have h1 := serveVideo_range_eval file csS []
      (not_mem_of_all_digits hSdig (by decide)) (not_mem_of_all_digits hSdig (by decide))
      (by simp) (by simp)
      ((s : Nat) : Int) ((file.length : Int) - 1)
      (by rw [if_neg hSne, hs]; rfl) (by rw [if_pos rfl])
    have t1 : (((s : Nat) : Int)).toNat = s := by omega
    have t2 : ((file.length : Int) - 1 - ((s : Nat) : Int) + 1).toNat = (file.drop s).length := by
      rw [List.length_drop]; omega
    rw [h1, t1, t2, List.take_length]
    simp only [Except.ok.injEq, ServeResult.mk.injEq, and_true, true_and]
    ring
  · intro file
    simp only [serveVideo]
    rw [readAllLoop_eq]

/-- Witness for C3 at the spec's own example: a 1000-byte file and a
request for bytes 200-299 yields a 206 answer, exactly 100 body bytes, and
a declared total of 1000. -/
theorem range_request_serves_exact_span_witness :
    serveVideo (List.range 1000) (some ("bytes=".data ++ (['2','0','0'] ++ '-' :: ['2','9','9']))) =
      .ok { status := 206, contentLength := 100,
            contentRange := some (200, 299, 1000),
            body := ((List.range 1000).drop 200).take 100 } := by
  have h := (range_request_serves_exact_span.1 (List.range 1000) ['2','0','0'] ['2','9','9']
    200 299 (by decide) (by decide) (by decide) (by simp [List.length_range])).1
  rw [h]
  norm_num [List.length_range]

/-- C7: when the requested end position is beyond the file, the body bytes
actually written are exactly the file from offset start to end of file; the
server never reads past end of file. -/
theorem range_request_clips_at_eof :
    ∀ (file : List Nat) (csS csE : List Char) (s e : Nat),
      digitsToNat csS = some s → digitsToNat csE = some e →
      file.length < e →
      serveVideo file (some ("bytes=".data ++ (csS ++ '-' :: csE))) =
        .ok { status := 206, contentLength := (e : Int) - (s : Int) + 1,
              contentRange := some (((s : Nat) : Int), ((e : Nat) : Int), file.length),
              body := file.drop s } := by
  intro file csS csE s e hs he hlen
  obtain ⟨hSne, hSdig⟩ := digitsToNat_some hs
  obtain ⟨hEne, hEdig⟩ := digitsToNat_some he
  have h1 := serveVideo_range_eval file csS csE
    (not_mem_of_all_digits hSdig (by decide)) (not_mem_of_all_digits hSdig (by decide))
    (not_mem_of_all_digits hEdig (by decide)) (not_mem_of_all_digits hEdig (by decide))
    ((s : Nat) : Int) ((e : Nat) : Int)
    (by rw [if_neg hSne, hs]; rfl) (by rw [if_neg hEne, he]; rfl)
  have t1 : (((s : Nat) : Int)).toNat = s := by omega
  have t3 : (file.drop s).length ≤ (((e : Nat) : Int) - ((s : Nat) : Int) + 1).toNat := by
    rw [List.length_drop]; omega
  rw [h1, t1, List.take_of_length_le t3]

/-- Witness for C7: a 10-byte file asked for bytes 4-15 returns exactly the
6 bytes from offset 4 to end of file. -/
theorem range_request_clips_at_eof_witness :
    serveVideo (List.range 10) (some ("bytes=".data ++ (['4'] ++ '-' :: ['1','5']))) =
      .ok { status := 206, contentLength := 12,
            contentRange := some (4, 15, 10),
            body := (List.range 10).drop 4 } := by
  have h := range_request_clips_at_eof (List.range 10) ['4'] ['1','5'] 4 15
    (by decide) (by decide) (by simp [List.length_range])
  rw [h]
  norm_num [List.length_range]

/-- C10: a Range header of the HTTP suffix form bytes=-N is parsed with
start 0 (the empty start position defaults to 0) and end N, so the server
answers with the first bytes 0 through N of the file rather than the final
N bytes HTTP suffix-range semantics would require. -/
theorem suffix_range_parses_start_zero :
    ∀ (file : List Nat) (csE : List Char) (n : Nat),
      digitsToNat csE = some n →
      serveVideo file (some ("bytes=".data ++ ('-' :: csE))) =
        .ok { status := 206, contentLength := (n : Int) + 1,
              contentRange := some (0, ((n : Nat) : Int), file.length),
              body := file.take (n + 1) } := by
  intro file csE n he
  obtain ⟨hEne, hEdig⟩ := digitsToNat_some he
  have h1 := serveVideo_range_eval file [] csE
    (by simp) (by simp)
    (not_mem_of_all_digits hEdig (by decide)) (not_mem_of_all_digits hEdig (by decide))
    0 ((n : Nat) : Int)
    (by rw [if_pos rfl]) (by rw [if_neg hEne, he]; rfl)
  rw [List.nil_append] at h1
  have t1 : ((0 : Int)).toNat = 0 := rfl
  have t2 : (((n : Nat) : Int) - 0 + 1).toNat = n + 1 := by omega
  rw [h1, t1, t2, List.drop_zero]
  simp only [Except.ok.injEq, ServeResult.mk.injEq, and_true, true_and]
  ring

/-- Witness for C10: bytes=-5 on a 10-byte file serves bytes 0 through 5
(the first six bytes), not the last five. -/
theorem suffix_range_parses_start_zero_witness :
    serveVideo (List.range 10) (some ("bytes=".data ++ ('-' :: ['5']))) =
      .ok { status := 206, contentLength := 6,
            contentRange := some (0, 5, 10),
            body := (List.range 10).take 6 } := by
  have h := suffix_range_parses_start_zero (List.range 10) ['5'] 5 (by decide)
  rw [h]
  norm_num [List.length_range]

/-! Lemmas and claim theorems about the export orchestrator. -/

/-- C6: an export request with an empty segments list is rejected with the
validation error and status 400; no external process is spawned, no
temporary directory is created, and no output path is selected. -/
theorem empty_cutlist_rejected :
    ∀ (env : Env) (source : String) (outputDir : Option String) (vflip : Bool),
      handleExport env source [] outputDir vflip =
        some { response := .err 400 "セグメントが指定されていません", spawned := [],
               tempDirCreated := false, tempDirRemoved := false, outputPath := none } := by
  intro env source outputDir vflip
  simp [handleExport]

/-- The collision loop, started at index k0 with enough fuel to answer,
returns the first free candidate at or after k0: the chosen candidate does
not exist and every earlier probed candidate does. -/
theorem resolveLoop_some (pe : String → Bool) (dir base ext : String) :
    ∀ (fuel k0 k : Nat), resolveLoop pe dir base ext fuel k0 = some k →
      k0 ≤ k ∧ pe (pathJoin dir (outputCandidate base ext k)) = false ∧
      ∀ j, k0 ≤ j → j < k → pe (pathJoin dir (outputCandidate base ext j)) = true := by
  intro fuel
  induction fuel with
  | zero => intro k0 k h; exact absurd h (by simp [resolveLoop])
  | succ f ih =>
    intro k0 k h
    rw [resolveLoop] at h
    by_cases hex : pe (pathJoin dir (outputCandidate base ext k0)) = true
    · rw [if_pos hex] at h
      obtain ⟨h1, h2, h3⟩ := ih (k0+1) k h
      refine ⟨by omega, h2, ?_⟩
      intro j hj1 hj2
      by_cases hj : j = k0
      · rw [hj]; exact hex
      · exact h3 j (by omega) hj2
    · rw [if_neg hex] at h
      have hk : k = k0 := by
        have := Option.some.injEq k0 k ▸ h
        simpa using h.symm
      subst hk
      exact ⟨le_rfl, by simpa using hex, fun j hj1 hj2 => absurd (lt_of_le_of_lt hj1 hj2) (lt_irrefl _)⟩

/-- C4: the export output name is the source stem with suffix _cut and the
source extension, and on collision the numbered variants _1, _2, ... are
probed in increasing order: whenever the loop answers, the chosen candidate
did not exist on disk while every lower-numbered candidate did; when the
plain _cut name is free it is chosen; and a second export run against a
filesystem that additionally contains the first run's chosen name picks a
strictly larger number, so repeated exports never reuse a name. -/
theorem output_name_collision_resolution :
    (∀ (pe : String → Bool) (dir base ext : String) (fuel k : Nat),
      resolveLoop pe dir base ext fuel 0 = some k →
      pe (pathJoin dir (outputCandidate base ext k)) = false ∧
      ∀ j, j < k → pe (pathJoin dir (outputCandidate base ext j)) = true)
    ∧ (∀ (pe : String → Bool) (dir base ext : String) (fuel : Nat),
      pe (pathJoin dir (outputCandidate base ext 0)) = false →
      resolveLoop pe dir base ext (fuel+1) 0 = some 0)
    ∧ (∀ (pe pe2 : String → Bool) (dir base ext : String) (fuel fuel2 k k2 : Nat),
      resolveLoop pe dir base ext fuel 0 = some k →
      (∀ p, pe p = true → pe2 p = true) →
      pe2 (pathJoin dir (outputCandidate base ext k)) = true →
      resolveLoop pe2 dir base ext fuel2 0 = some k2 →
      k < k2) := by
  refine ⟨?_, ?_, ?_⟩
  · intro pe dir base ext fuel k h
    obtain ⟨-, h2, h3⟩ := resolveLoop_some pe dir base ext fuel 0 k h
    exact ⟨h2, fun j hj => h3 j (Nat.zero_le _) hj⟩
  · intro pe dir base ext fuel h
    rw [resolveLoop, if_neg (by simp [h])]
  · intro pe pe2 dir base ext fuel fuel2 k k2 h1 hmono hk h2
    obtain ⟨-, hfree1, hbusy1⟩ := resolveLoop_some pe dir base ext fuel 0 k h1
    obtain ⟨-, hfree2, hbusy2⟩ := resolveLoop_some pe2 dir base ext fuel2 0 k2 h2
    by_contra hle
    push_neg at hle
    rcases Nat.lt_or_ge k2 k with hlt | hge
    · have := hmono _ (hbusy1 k2 (Nat.zero_le _) hlt)
      rw [hfree2] at this
      exact absurd this (by simp)
    · have hk2 : k2 = k := by omega
      rw [hk2, hk] at hfree2
      exact absurd hfree2 (by simp)

/-- Witness for C4: with exactly video_cut.mp4 present in /out, exporting
from video.mp4 resolves to candidate 1 (video_cut_1.mp4), which did not
exist, while candidate 0 did. -/
theorem output_name_collision_resolution_witness :
    (fun p => p == pathJoin "/out" (outputCandidate "video" ".mp4" 0))
        (pathJoin "/out" (outputCandidate "video" ".mp4" 1)) = false ∧
    ∀ j, j < 1 → (fun p => p == pathJoin "/out" (outputCandidate "video" ".mp4" 0))
        (pathJoin "/out" (outputCandidate "video" ".mp4" j)) = true :=
  output_name_collision_resolution.1
    (fun p => p == pathJoin "/out" (outputCandidate "video" ".mp4" 0))
    "/out" "video" ".mp4" 3 1 (by decide)

/-- In the sequential loop, if the oracle completes the first j invocations
with exit status 0 and the invocation at relative index j with a non-zero
status, the loop stops at the 1-based index of the failing segment, carries
the bounded diagnostic tail, and spawned exactly the first j+1 per-segment
invocations. -/
theorem runSegs_fail_at (env : Env) (source : String) (vflip : Bool) (tempDir : String) :
    ∀ (segs : List Segment) (i j : Nat) (rc : Int) (diag : String),
      j < segs.length →
      env.procs (i + j) = .completed rc diag → rc ≠ 0 →
      (∀ t, t < j → ∃ d, env.procs (i + t) = .completed 0 d) →
      runSegs env source vflip tempDir segs i =
        .segFail (i + j + 1) (tail300 diag) (segCmds source vflip tempDir (segs.take (j+1)) i) := by
  intro segs
  induction segs with
  | nil => intro i j rc diag hj; simp at hj
  | cons seg rest ih =>
    intro i j rc diag hj hfail hrc hok
    cases j with
    | zero =>
      rw [runSegs]
      rw [show i + 0 = i from rfl] at hfail
      rw [hfail]
      dsimp only
      rw [if_pos hrc]
      rfl
    | succ t =>
      obtain ⟨d, hd⟩ := hok 0 (Nat.succ_pos t)
      rw [show i + 0 = i from rfl] at hd
      rw [runSegs, hd]
      dsimp only
      rw [if_neg (by simp)]
      have hfail' : env.procs ((i+1) + t) = .completed rc diag := by
        rw [show (i+1) + t = i + (t+1) from by omega]; exact hfail
      have hok' : ∀ u, u < t → ∃ d2, env.procs ((i+1) + u) = .completed 0 d2 := by
        intro u hu
        obtain ⟨d2, hd2⟩ := hok (u+1) (by omega)
        exact ⟨d2, by rw [show (i+1) + u = i + (u+1) from by omega]; exact hd2⟩
      rw [ih (i+1) t rc diag (by simpa using hj) hfail' hrc hok']
      dsimp only
      rw [show i + (t+1) + 1 = (i+1) + t + 1 from by omega]
      rfl

/-- Every invocation spawned by the sequential loop is a per-segment
invocation. -/
theorem mem_segCmds (source : String) (vflip : Bool) (tempDir : String) :
    ∀ (segs : List Segment) (i : Nat) (cmd : List String),
      cmd ∈ segCmds source vflip tempDir segs i →
      ∃ t seg, cmd = segCmd source vflip tempDir t seg := by
  intro segs
  induction segs with
  | nil => intro i cmd h; simp [segCmds] at h
  | cons seg rest ih =>
    intro i cmd h
    rw [segCmds] at h
    rcases List.mem_cons.mp h with h' | h'
    · exact ⟨i, seg, h'⟩
    · exact ih (i+1) cmd h'

/-- A concatenation invocation is never equal to a per-segment invocation:
the third argument differs (-f versus -ss). -/
theorem concatCmd_ne_segCmd (td out src : String) (v : Bool) (td2 : String) (i : Nat)
    (seg : Segment) : concatCmd td out ≠ segCmd src v td2 i seg := by
  intro h
  simp [concatCmd, segCmd] at h

/-- The loop builds one invocation per segment. -/
theorem segCmds_length (source : String) (vflip : Bool) (tempDir : String) :
    ∀ (segs : List Segment) (i : Nat),
      (segCmds source vflip tempDir segs i).length = segs.length := by
  intro segs
  induction segs with
  | nil => intro i; rfl
  | cons seg rest ih => intro i; rw [segCmds]; simp [ih]

/-- C5: in a multi-segment export whose oracle fails the invocation of
segment j (0-based) with a non-zero exit after the earlier ones succeeded,
the handler answers the numbered error of segment j+1 carrying a diagnostic
tail of at most 300 characters, spawned exactly the per-segment invocations
of segments 0..j (so later segments never run), removed the temporary
directory, and never spawned the concatenation invocation. -/
theorem failing_segment_stops_pipeline :
    ∀ (env : Env) (source odir : String) (vflip : Bool) (segments : List Segment)
      (j : Nat) (rc : Int) (diag : String) (k : Nat),
      2 ≤ segments.length → j < segments.length →
      env.procs j = .completed rc diag → rc ≠ 0 →
      (∀ t, t < j → ∃ d, env.procs t = .completed 0 d) →
      resolveLoop env.pathExists odir (splitext (basename source)).1
        (splitext (basename source)).2 env.nameFuel 0 = some k →
      handleExport env source segments (some odir) vflip =
        some { response := .err 500 ("セグメント" ++ natRepr (j+1) ++ "のエラー: " ++ tail300 diag),
               spawned := segCmds source vflip env.tempDirName (segments.take (j+1)) 0,
               tempDirCreated := true, tempDirRemoved := true,
               outputPath := some (pathJoin odir (outputCandidate (splitext (basename source)).1
                 (splitext (basename source)).2 k)) } ∧
      (segCmds source vflip env.tempDirName (segments.take (j+1)) 0).length = j + 1 ∧
      (tail300 diag).data.length ≤ 300 ∧
      ∀ out, concatCmd env.tempDirName out ∉
        segCmds source vflip env.tempDirName (segments.take (j+1)) 0 := by
  intro env source odir vflip segments j rc diag k hlen2 hj hfail hrc hok hres
  have hrun := runSegs_fail_at env source vflip env.tempDirName segments 0 j rc diag hj
    (by simpa using hfail) hrc (by simpa using hok)
  constructor
  · rcases segments with _ | ⟨a, _ | ⟨b, rest⟩⟩
    · simp at hlen2
    · simp at hlen2
    · rw [handleExport]
      rw [if_neg (by simp)]
      simp only [Option.getD_some]
      rw [hres]
      dsimp only
      rw [hrun]
      dsimp only
      simp only [Nat.zero_add]
  refine ⟨?_, ?_, ?_⟩
  · rw [segCmds_length]
    rw [List.length_take]
    omega
  · show (diag.data.drop (diag.data.length - 300)).length ≤ 300
    simp only [List.length_drop]
    omega
  · intro out hmem
    obtain ⟨t, seg, hEq⟩ := mem_segCmds source vflip env.tempDirName _ _ _ hmem
    exact concatCmd_ne_segCmd _ _ _ _ _ _ _ hEq

/-- Witness for C5: three segments, segment 2 (index 1) fails with exit
status 1; the handler reports segment 2 with the diagnostic tail, spawned
only the first two per-segment invocations, and removed the temporary
directory. -/
theorem failing_segment_stops_pipeline_witness :
    handleExport envFailSeg2 "/v/a.mp4" [⟨0, 1⟩, ⟨2, 3⟩, ⟨4, 5⟩] (some "/v") false =
      some { response := .err 500 ("セグメント" ++ natRepr 2 ++ "のエラー: " ++ tail300 "boom"),
             spawned := segCmds "/v/a.mp4" false envFailSeg2.tempDirName
               (([⟨0, 1⟩, ⟨2, 3⟩, ⟨4, 5⟩] : List Segment).take 2) 0,
             tempDirCreated := true, tempDirRemoved := true,
             outputPath := some (pathJoin "/v" (outputCandidate
               (splitext (basename "/v/a.mp4")).1 (splitext (basename "/v/a.mp4")).2 0)) } :=
  (failing_segment_stops_pipeline envFailSeg2 "/v/a.mp4" "/v" false
    [⟨0, 1⟩, ⟨2, 3⟩, ⟨4, 5⟩] 1 1 "boom" 0
    (by decide) (by decide) (by decide) (by decide)
    (fun t ht => ⟨"", by rw [Nat.lt_one_iff.mp ht]; rfl⟩)
    (by decide)).1

/-- C1 counterexample: in a two-segment export whose second invocation
raises TimeoutExpired, the handler returns with the temporary directory
created but not removed — the timeout exit path of the multi-segment branch
skips the cleanup. -/
theorem tempdir_leak_on_timeout :
    (handleExport envTimeoutSeg2 "/v/a.mp4" [⟨0, 1⟩, ⟨2, 3⟩] (some "/v") false).map
      (fun o => (o.tempDirCreated, o.tempDirRemoved)) = some (true, false) := by
  decide

/-- When every oracle answer is a completed process (no timeout), the
sequential loop never ends in the timeout state. -/
theorem runSegs_no_timeout (env : Env) (source : String) (vflip : Bool) (tempDir : String)
    (hok : ∀ i, ∃ rc d, env.procs i = .completed rc d) :
    ∀ (segs : List Segment) (i : Nat),
      (runSegs env source vflip tempDir segs i).isTimeout = false := by
  intro segs
  induction segs with
  | nil => intro i; rfl
  | cons seg rest ih =>
    intro i
    obtain ⟨rc, d, hd⟩ := hok i
    rw [runSegs, hd]
    dsimp only
    by_cases hrc : rc ≠ 0
    · rw [if_pos hrc]; rfl
    · rw [if_neg hrc]
      have hi := ih (i+1)
      cases hr : runSegs env source vflip tempDir rest (i+1) with
      | timeout sp =>
        rw [hr] at hi
        exact absurd hi (by simp [MultiStep.isTimeout])
      | segFail j t sp => rfl
      | done sp => rfl

/-- C1 amended: in a multi-segment export the temporary directory is
removed before the handler returns on the success path, on the first
per-segment non-zero exit, and after the concatenation attempt completes
with any exit status — that is, whenever no external invocation raises a
timeout.  (The counterexample shows the timeout path leaks it.) -/
theorem tempdir_removed_when_no_timeout :
    ∀ (env : Env) (source odir : String) (vflip : Bool) (segments : List Segment) (k : Nat),
      2 ≤ segments.length →
      (∀ i, ∃ rc d, env.procs i = .completed rc d) →
      resolveLoop env.pathExists odir (splitext (basename source)).1
        (splitext (basename source)).2 env.nameFuel 0 = some k →
      ∃ out, handleExport env source segments (some odir) vflip = some out ∧
        out.tempDirCreated = true ∧ out.tempDirRemoved = true := by
  intro env source odir vflip segments k hlen hok hres
  rcases segments with _ | ⟨a, _ | ⟨b, rest⟩⟩
  · simp at hlen
  · simp at hlen
  rw [handleExport, if_neg (by simp)]
  simp only [Option.getD_some]
  rw [hres]
  dsimp only
  cases hr : runSegs env source vflip env.tempDirName (a :: b :: rest) 0 with
  | timeout sp =>
    have hnt := runSegs_no_timeout env source vflip env.tempDirName hok (a :: b :: rest) 0
    rw [hr] at hnt
    exact absurd hnt (by simp [MultiStep.isTimeout])
  | segFail j t sp => exact ⟨_, rfl, rfl, rfl⟩
  | done sp =>
    obtain ⟨rc, d, hd⟩ := hok (([] : List Segment).length + 2 + rest.length)
    rw [show (a :: b :: rest : List Segment).length = ([] : List Segment).length + 2 + rest.length
      from by simp; omega] at *
    rw [hd]
    dsimp only
    by_cases hrc : rc ≠ 0
    · rw [if_pos hrc]; exact ⟨_, rfl, rfl, rfl⟩
    · rw [if_neg hrc]; exact ⟨_, rfl, rfl, rfl⟩

/-- Witness for the amended C1: a two-segment export with an all-success
oracle creates and removes the temporary directory. -/
theorem tempdir_removed_when_no_timeout_witness :
    ∃ out, handleExport envAllOk "/v/a.mp4" [⟨0, 1⟩, ⟨2, 3⟩] (some "/v") false = some out ∧
      out.tempDirCreated = true ∧ out.tempDirRemoved = true :=
  tempdir_removed_when_no_timeout envAllOk "/v/a.mp4" "/v" false [⟨0, 1⟩, ⟨2, 3⟩] 0
    (by decide) (fun i => ⟨0, "", rfl⟩) (by decide)

/-- C2 counterexample: an export request whose only segment has out < in
(out 3, in 5) is not rejected — the handler spawns a transcoder invocation
for it (one process runs). -/
theorem invalid_range_not_rejected :
    (handleExport envAllOk "/v/a.mp4" [⟨5, 3⟩] (some "/v") false).map
      (fun o => o.spawned.length) = some 1 := by
  decide

/-- Whatever the oracle answers, the sequential loop on a non-empty segment
list spawns the first per-segment invocation first. -/
theorem runSegs_cons_spawned (env : Env) (source : String) (vflip : Bool) (tempDir : String)
    (seg : Segment) (rest : List Segment) (i : Nat) :
    ∃ tl, (runSegs env source vflip tempDir (seg :: rest) i).spawnedList
      = segCmd source vflip tempDir i seg :: tl := by
  rw [runSegs]
  cases env.procs i with
  | timedOut => exact ⟨[], rfl⟩
  | completed rc d =>
    dsimp only
    by_cases hrc : rc ≠ 0
    · rw [if_pos hrc]; exact ⟨[], rfl⟩
    · rw [if_neg hrc]
      cases hr : runSegs env source vflip tempDir rest (i+1) with
      | timeout sp => exact ⟨sp, rfl⟩
      | segFail j t sp => exact ⟨sp, rfl⟩
      | done sp => exact ⟨sp, rfl⟩

/-- C2 amended: the export handler performs no range validation: for every
request with a non-empty segments list — in particular one whose range has
out ≤ in — no validation error is sent (the only 400 rejection is the empty
list), at least one external invocation is spawned, and the first spawned
invocation is exactly the one built for the first segment, whatever its
range. -/
theorem no_range_validation_before_spawn :
    ∀ (env : Env) (source odir : String) (vflip : Bool) (seg : Segment)
      (rest : List Segment) (k : Nat),
      resolveLoop env.pathExists odir (splitext (basename source)).1
        (splitext (basename source)).2 env.nameFuel 0 = some k →
      ∃ out, handleExport env source (seg :: rest) (some odir) vflip = some out ∧
        1 ≤ out.spawned.length ∧
        out.spawned.head? = some (match rest with
          | [] => singleCmd source seg vflip (pathJoin odir (outputCandidate
              (splitext (basename source)).1 (splitext (basename source)).2 k))
          | _ => segCmd source vflip env.tempDirName 0 seg) ∧
        ∀ msg, out.response ≠ .err 400 msg := by
  intro env source odir vflip seg rest k hres
  rcases rest with _ | ⟨b, rest'⟩
  · rw [handleExport, if_neg (by simp)]
    simp only [Option.getD_some]
    rw [hres]
    dsimp only
    cases env.procs 0 with
    | timedOut =>
      refine ⟨_, rfl, by simp, rfl, ?_⟩
      intro msg h
      simp [ExportResponse.err.injEq] at h
    | completed rc d =>
      dsimp only
      by_cases hrc : rc ≠ 0
      · rw [if_pos hrc]
        refine ⟨_, rfl, by simp, rfl, ?_⟩
        intro msg h
        simp [ExportResponse.err.injEq] at h
      · rw [if_neg hrc]
        refine ⟨_, rfl, by simp, rfl, ?_⟩
        intro msg h
        simp at h
  · rw [handleExport, if_neg (by simp)]
    simp only [Option.getD_some]
    rw [hres]
    dsimp only
    obtain ⟨tl, htl⟩ := runSegs_cons_spawned env source vflip env.tempDirName seg (b :: rest') 0
    cases hr : runSegs env source vflip env.tempDirName (seg :: b :: rest') 0 with
    | timeout sp =>
      rw [hr] at htl
      refine ⟨_, rfl, ?_, ?_, ?_⟩
      · show 1 ≤ sp.length
        rw [show sp = (MultiStep.timeout sp).spawnedList from rfl, htl]
        simp
      · show sp.head? = _
        rw [show sp = (MultiStep.timeout sp).spawnedList from rfl, htl]
        rfl
      · intro msg h
        simp [ExportResponse.err.injEq] at h
    | segFail j t sp =>
      rw [hr] at htl
      refine ⟨_, rfl, ?_, ?_, ?_⟩
      · show 1 ≤ sp.length
        rw [show sp = (MultiStep.segFail j t sp).spawnedList from rfl, htl]
        simp
      · show sp.head? = _
        rw [show sp = (MultiStep.segFail j t sp).spawnedList from rfl, htl]
        rfl
      · intro msg h
        simp [ExportResponse.err.injEq] at h
    | done sp =>
      rw [hr] at htl
      have hsp : sp = segCmd source vflip env.tempDirName 0 seg :: tl := htl
      cases env.procs (seg :: b :: rest' : List Segment).length with
      | timedOut =>
        refine ⟨_, rfl, ?_, ?_, ?_⟩
        · show 1 ≤ (sp ++ [concatCmd env.tempDirName _]).length
          simp [hsp]
        · show (sp ++ [concatCmd env.tempDirName _]).head? = _
          rw [hsp]
          rfl
        · intro msg h
          simp [ExportResponse.err.injEq] at h
      | completed rc d =>
        dsimp only
        by_cases hrc : rc ≠ 0
        · rw [if_pos hrc]
          refine ⟨_, rfl, ?_, ?_, ?_⟩
          · show 1 ≤ (sp ++ [concatCmd env.tempDirName _]).length
            simp [hsp]
          · show (sp ++ [concatCmd env.tempDirName _]).head? = _
            rw [hsp]
            rfl
          · intro msg h
            simp [ExportResponse.err.injEq] at h
        · rw [if_neg hrc]
          refine ⟨_, rfl, ?_, ?_, ?_⟩
          · show 1 ≤ (sp ++ [concatCmd env.tempDirName _]).length
            simp [hsp]
          · show (sp ++ [concatCmd env.tempDirName _]).head? = _
            rw [hsp]
            rfl
          · intro msg h
            simp at h

/-- Witness for the amended C2: the single-segment request with in 5, out 3
(an out ≤ in range) spawns its invocation and is not answered with a 400
validation error. -/
theorem no_range_validation_before_spawn_witness :
    ∃ out, handleExport envAllOk "/v/a.mp4" [⟨5, 3⟩] (some "/v") false = some out ∧
      1 ≤ out.spawned.length ∧
      out.spawned.head? = some (singleCmd "/v/a.mp4" ⟨5, 3⟩ false (pathJoin "/v" (outputCandidate
        (splitext (basename "/v/a.mp4")).1 (splitext (basename "/v/a.mp4")).2 0))) ∧
      ∀ msg, out.response ≠ .err 400 msg :=
  no_range_validation_before_spawn envAllOk "/v/a.mp4" "/v" false ⟨5, 3⟩ [] 0 (by decide)

/-- The ten digit characters are exactly those classified as digits. -/
theorem digitChar_isDigit {n : Nat} (h : n < 10) : (Nat.digitChar n).isDigit = true := by
  interval_cases n <;> decide

/-- Every character of the four-digit fractional part is a decimal
digit. -/
theorem digitStr4_all_digits (fp : Nat) : ∀ c ∈ (digitStr4 fp).data, c.isDigit = true := by
  intro c hc
  have h4 : (digitStr4 fp).data = [Nat.digitChar (fp / 1000 % 10), Nat.digitChar (fp / 100 % 10),
      Nat.digitChar (fp / 10 % 10), Nat.digitChar (fp % 10)] := rfl
  rw [h4] at hc
  simp only [List.mem_cons, List.not_mem_nil, or_false] at hc
  rcases hc with h | h | h | h <;> rw [h] <;> exact digitChar_isDigit (by omega)

/-- C8: the invocation built with flip false is the stream-copy command —
start offset, duration, plain codec copy and the timestamp remap to zero,
with no filter and no encoder arguments — while the invocation built with
flip true carries the vertical-flip video filter, the constant-quality
H.264 video re-encode (crf 18) and an audio stream copy; both are plain
functions of their inputs.  The same codec argument block is used by the
per-segment form of the multi-segment branch. -/
theorem codec_args_by_mode :
    (∀ (source outPath : String) (seg : Segment),
      singleCmd source seg false outPath =
        ["ffmpeg", "-y", "-ss", fmt4 seg.tIn, "-i", source, "-t", fmt4 (seg.tOut - seg.tIn),
         "-c", "copy", "-avoid_negative_ts", "make_zero", outPath])
    ∧ (∀ (source outPath : String) (seg : Segment),
      singleCmd source seg true outPath =
        ["ffmpeg", "-y", "-ss", fmt4 seg.tIn, "-i", source, "-t", fmt4 (seg.tOut - seg.tIn),
         "-vf", "vflip", "-c:v", "libx264", "-preset", "medium", "-crf", "18", "-c:a", "copy",
         "-avoid_negative_ts", "make_zero", outPath])
    ∧ (∀ (source tempDir : String) (i : Nat) (seg : Segment),
      segCmd source false tempDir i seg =
        ["ffmpeg", "-y", "-ss", fmt4 seg.tIn, "-i", source, "-t", fmt4 (seg.tOut - seg.tIn),
         "-c", "copy", "-avoid_negative_ts", "make_zero", "-f", "mpegts", segTempFile tempDir i])
    ∧ codecArgs false = ["-c", "copy"]
    ∧ codecArgs true = ["-vf", "vflip", "-c:v", "libx264", "-preset", "medium", "-crf", "18",
        "-c:a", "copy"]
    ∧ ("-vf" ∉ codecArgs false ∧ "libx264" ∉ codecArgs false ∧ "-crf" ∉ codecArgs false) :=
  ⟨fun _ _ _ => rfl, fun _ _ _ => rfl, fun _ _ _ _ => rfl, rfl, rfl, by decide⟩

/-- C9: every invocation carries the range's in value and the difference
out - in through the 4-decimal formatter as its -ss and -t arguments; the
formatter always produces a dot followed by exactly four digit characters;
and the TimeRange in 10.0, out 30.0 yields the duration string exactly
20.0000 (10, 30 and 20 are exactly representable doubles, so the exact
rational model coincides with Python float arithmetic here). -/
theorem duration_formatted_four_decimals :
    (∀ (source outPath : String) (seg : Segment) (vflip : Bool),
      singleCmd source seg vflip outPath =
        ["ffmpeg", "-y", "-ss", fmt4 seg.tIn, "-i", source, "-t", fmt4 (seg.tOut - seg.tIn)]
          ++ codecArgs vflip ++ ["-avoid_negative_ts", "make_zero", outPath])
    ∧ (∀ q : ℚ, ∃ (w : String) (fp : Nat), fp < 10000 ∧
        fmt4 q = w ++ "." ++ digitStr4 fp ∧ (digitStr4 fp).data.length = 4 ∧
        ∀ c ∈ (digitStr4 fp).data, c.isDigit = true)
    ∧ fmt4 ((30 : ℚ) - 10) = "20.0000"
    ∧ fmt4 (10 : ℚ) = "10.0000" := by
  refine ⟨fun _ _ _ _ => rfl, ?_, ?_, ?_⟩
  · intro q
    by_cases hneg : q.num < 0
    · refine ⟨"-" ++ natRepr ((round4 q).natAbs / 10000), (round4 q).natAbs % 10000,
        Nat.mod_lt _ (by norm_num), ?_, rfl, digitStr4_all_digits _⟩
      show (if q.num < 0 then
          "-" ++ (natRepr ((round4 q).natAbs / 10000) ++ "." ++ digitStr4 ((round4 q).natAbs % 10000))
        else _) = _
      rw [if_pos hneg, ← String.append_assoc, ← String.append_assoc]
    · refine ⟨natRepr ((round4 q).natAbs / 10000), (round4 q).natAbs % 10000,
        Nat.mod_lt _ (by norm_num), ?_, rfl, digitStr4_all_digits _⟩
      show (if q.num < 0 then _ else
          natRepr ((round4 q).natAbs / 10000) ++ "." ++ digitStr4 ((round4 q).natAbs % 10000)) = _
      rw [if_neg hneg]
  · have h : (30 : ℚ) - 10 = 20 := by norm_num
    rw [h]
    decide
  · decide

end VideoCut
